import Mathlib

/-!
Verification of the wire-format parsing layer of the db6 repository
(`src/json.rs`, `src/http.rs`, `src/server.rs`) against its natural-language
specification.

The Rust code is shallowly embedded: byte buffers (`&[u8]`) become
`List Nat` (each element a byte value `< 256`), Rust `String`s become lists
of character code points (the tokeniser casts single bytes to `char`, so at
the byte level the two coincide for ASCII data, the only data any theorem
below touches), fallible functions return `Except String _`, and slice
indexing that Rust would abort on (index out of bounds) or arithmetic that
would underflow a `usize` is made explicit with a `panic` result
constructor.  `f64` values are carried as their source literals: no theorem
below depends on float arithmetic or float formatting.
-/

/-- Byte buffers (`&[u8]`) and code-point lists. -/
abbrev Bytes := List Nat

/-- Alias for `Bool`, usable in signatures declared inside namespaces whose
inductive has a constructor named `Bool`. -/

abbrev Boolean := Bool

/-- Bytes of a Lean string literal, used to transcribe ASCII constants from
the Rust source. -/
def strB (s : String) : List Nat := s.toList.map Char.toNat

/-- Rebuild a Lean `String` from a list of character code points (used only
to assemble error-message text, mirroring the Rust `String` concatenation). -/
def codesToString (l : List Nat) : String := String.mk (l.map Char.ofNat)

/-- `u8::is_ascii_digit`. -/
def isAsciiDigit (c : Nat) : Bool := 48 ≤ c ∧ c ≤ 57

/-- `u8::is_ascii_lowercase`. -/
def isAsciiLowercase (c : Nat) : Bool := 97 ≤ c ∧ c ≤ 122

/-- `u8::is_ascii_hexdigit`. -/
def isAsciiHexdigit (c : Nat) : Bool :=
  (48 ≤ c ∧ c ≤ 57) ∨ (97 ≤ c ∧ c ≤ 102) ∨ (65 ≤ c ∧ c ≤ 70)

/-- Numeric value of an ASCII hex digit. -/
def hexDigitVal (c : Nat) : Nat :=
  if 48 ≤ c ∧ c ≤ 57 then c - 48
  else if 97 ≤ c ∧ c ≤ 102 then c - 97 + 10
  else c - 65 + 10

/-- `JsonNumber` from `src/json.rs`: `Int` is `i64` (embedded as an
unbounded integer; the tokeniser enforces the `i64` range when it parses a
literal), `Float` is `f64`, carried as the decimal literal it was parsed
from (float arithmetic/formatting is not modelled; no theorem depends on
it). -/
inductive JsonNumber where
  | Int (n : Int)
  | Float (lit : List Nat)

mutual

/-- The `Json` value tree from `src/json.rs`.  `None` is the `Absent`
sentinel, distinct from `Null`. -/
inductive Json where
  | Number (n : JsonNumber)
  | String (s : List Nat)
  | List (xs : List Json)
  | Object (o : JsonObject)
  | Bool (b : Bool)
  | Null
  | None

/-- `JsonObject` from `src/json.rs`: the `HashMap<String, Json>` is embedded
as an association list with unique keys (insertion replaces), and the
`none: Box<Json>` member is the `noneVal` field. -/
inductive JsonObject where
  | mk (map : List (List Nat × Json)) (noneVal : Json)

end

/-- Projection of the `map` field of a `JsonObject`. -/
def JsonObject.map : JsonObject → List (List Nat × Json)
  | .mk m _ => m

/-- Projection of the `none` field of a `JsonObject`. -/
def JsonObject.noneVal : JsonObject → Json
  | .mk _ nv => nv

/-- `JsonObject::new`. -/
def JsonObject.new : JsonObject := .mk [] Json.None

/-- `JsonObject::from_map`. -/
def JsonObject.from_map (m : List (List Nat × Json)) : JsonObject := .mk m Json.None

/-- `HashMap::get` / `contains_key`: first (unique) binding of the key. -/
def lookupAssoc : List (List Nat × Json) → List Nat → Option Json
  | [], _ => none
  | (k', v) :: rest, k => if k' = k then some v else lookupAssoc rest k

/-- `HashMap::insert`: replace the binding if the key is present, append it
otherwise. -/
def insertAssoc : List (List Nat × Json) → List Nat → Json → List (List Nat × Json)
  | [], k, v => [(k, v)]
  | (k', v') :: rest, k, v =>
    if k' = k then (k, v) :: rest else (k', v') :: insertAssoc rest k v

/-- `impl Index<String> for JsonObject` (`src/json.rs:82`): a `&self`
method, embedded state-passing style; the second component is the map after
the access, which the borrow makes identical to the map before. -/
def JsonObject.index (o : JsonObject) (k : List Nat) : Json × JsonObject :=
  (match lookupAssoc o.map k with
   | some v => v
   | none => o.noneVal, o)

/-- `impl IndexMut<String> for JsonObject` (`src/json.rs:94`): if the key is
absent, first insert `Json::None` under it; then return the object after the
access together with the value the returned `&mut` handle points at
(`self.map.get_mut(&index).unwrap()`). -/
def JsonObject.index_mut (o : JsonObject) (k : List Nat) : JsonObject × Json :=
  let m' := if (lookupAssoc o.map k).isSome then o.map else insertAssoc o.map k Json.None
  (.mk m' o.noneVal, (lookupAssoc m' k).getD Json.None)

/-- The token type from `src/json.rs`. -/
inductive Token where
  | CurlyOpen
  | CurlyClose
  | BracketOpen
  | BracketClose
  | Comma
  | Colon
  | String (s : List Nat)
  | Bool (b : Bool)
  | Int (n : Int)
  | Float (lit : List Nat)
  | Null

/-- `matches!(_, Token::String(_))`. -/
def Token.isStringTok : Token → Boolean
  | .String _ => true
  | _ => false

/-- `matches!(_, Token::Colon)`. -/
def Token.isColon : Token → Boolean
  | .Colon => true
  | _ => false

/-- `matches!(_, Token::Comma)`. -/
def Token.isComma : Token → Boolean
  | .Comma => true
  | _ => false

/-- `matches!(_, Token::CurlyClose)`. -/
def Token.isCurlyClose : Token → Boolean
  | .CurlyClose => true
  | _ => false

/-- `matches!(_, Token::BracketClose)`. -/
def Token.isBracketClose : Token → Boolean
  | .BracketClose => true
  | _ => false

/-- `matches!(_, Json::None)`. -/
def Json.isNoneVal : Json → Boolean
  | .None => true
  | _ => false

/-- The number loop of `Json::tokenise` (`src/json.rs:124`):
`while data[cur].is_ascii_digit() || (!found_decimal && data[cur] == b'.')`.
The loop condition indexes `data[cur]` without a bounds check, so when the
input ends inside the number the Rust code indexes one past the end of the
slice and aborts; that case is the `none` result. -/
def lexNumber (found_decimal : Bool) (num_str : List Nat) :
    List Nat → Option (Bool × List Nat × List Nat)
  | [] => none
  | c :: rest =>
    if isAsciiDigit c || (!found_decimal && c == 46) then
      lexNumber (found_decimal || c == 46) (num_str ++ [c]) rest
    else some (found_decimal, num_str, c :: rest)

/-- The identifier loop of `Json::tokenise` (`src/json.rs:189`):
`while data[cur].is_ascii_lowercase()`, again with no bounds check on the
loop condition; `none` is the out-of-bounds abort. -/
def lexIdent (ident : List Nat) : List Nat → Option (List Nat × List Nat)
  | [] => none
  | c :: rest =>
    if isAsciiLowercase c then lexIdent (ident ++ [c]) rest
    else some (ident, c :: rest)

/-- Value of a pure-digit literal (`str::parse` on a string of ASCII
digits). -/
def digitsToNat (ds : List Nat) : Nat := ds.foldl (fun a c => a * 10 + (c - 48)) 0

/-- `i64::MAX`; a longer digit string makes `parse::<i64>` fail. -/
def i64Max : Nat := 9223372036854775807

/-- Error text for a hex digit missing after a `\u` escape. -/
def uniHexErrMsg (c : Nat) : String :=
  "Expected 4 hex digits after \\u for the unicode character, but found the character " ++
    codesToString [c] ++ " instead"

/-- Error text for input ending inside a `\u` escape. -/
def uniEndedMsg : String :=
  "Expected 4 characters to be present after \\u for the unicode character, but the JSON representation ended"

/-- The string loop of `Json::tokenise` (`src/json.rs:201`-`279`).  This
loop does check its bounds (`while cur < data.len() && ...`), so it returns
errors rather than aborting.  String content accumulates character code
points: a plain byte is pushed as `data[cur] as char` (its own value), and a
`\uXXXX` escape pushes the decoded scalar value (`char::from_u32` rejects
surrogates; four hex digits cannot exceed `0x10FFFF`, and
`u32::from_str_radix` on four checked hex digits cannot fail). -/
def lexString (escape : Bool) (content : List Nat) :
    List Nat → Except String (List Nat × List Nat)
  | [] => .error "Could not find \" to end the string value"
  | c :: rest =>
    if !escape && c == 34 then .ok (content, rest)
    else if !escape && c == 92 then lexString true content rest
    else if escape then
      if c == 34 then lexString false (content ++ [34]) rest
      else if c == 92 then lexString false (content ++ [92]) rest
      else if c == 47 then lexString false (content ++ [47]) rest
      else if c == 98 then lexString false (content ++ [8]) rest
      else if c == 102 then lexString false (content ++ [12]) rest
      else if c == 110 then lexString false (content ++ [10]) rest
      else if c == 114 then lexString false (content ++ [13]) rest
      else if c == 116 then lexString false (content ++ [9]) rest
      else if c == 117 then
        match rest with
        | h1 :: h2 :: h3 :: h4 :: rest4 =>
          if !isAsciiHexdigit h1 then .error (uniHexErrMsg h1)
          else if !isAsciiHexdigit h2 then .error (uniHexErrMsg h2)
          else if !isAsciiHexdigit h3 then .error (uniHexErrMsg h3)
          else if !isAsciiHexdigit h4 then .error (uniHexErrMsg h4)
          else
            let code := ((hexDigitVal h1 * 16 + hexDigitVal h2) * 16 + hexDigitVal h3) * 16 +
              hexDigitVal h4
            if 1114112 ≤ code ∨ (55296 ≤ code ∧ code ≤ 57343) then
              .error ("Failed to convert the provided unicode codepoint \\u" ++
                codesToString [h1, h2, h3, h4] ++ " to a unicode scalar value")
            else lexString false (content ++ [code]) rest4
        | [h1, h2, h3] =>
          if !isAsciiHexdigit h1 then .error (uniHexErrMsg h1)
          else if !isAsciiHexdigit h2 then .error (uniHexErrMsg h2)
          else if !isAsciiHexdigit h3 then .error (uniHexErrMsg h3)
          else .error uniEndedMsg
        | [h1, h2] =>
          if !isAsciiHexdigit h1 then .error (uniHexErrMsg h1)
          else if !isAsciiHexdigit h2 then .error (uniHexErrMsg h2)
          else .error uniEndedMsg
        | [h1] =>
          if !isAsciiHexdigit h1 then .error (uniHexErrMsg h1)
          else .error uniEndedMsg
        | [] => .error uniEndedMsg
      else .error ("Invalid escape sequence \\" ++ codesToString [c] ++ " found in JSON")
    else lexString false (content ++ [c]) rest

/-- Result of `Json::tokenise`: `ok`/`err` are the Rust `Ok`/`Err`; `panic`
is an out-of-bounds slice index aborting the process. -/
inductive TokRes where
  | ok (tokens : List Token)
  | err (msg : String)
  | panic

/-- The outer `while cur < data.len()` loop of `Json::tokenise`
(`src/json.rs:121`), one constructor dispatch per iteration.  Every
iteration consumes at least one input byte, so `data.length + 1` fuel makes
the fuel-exhausted arm unreachable.  `num_str.parse::<f64>()` on a literal
made of digits and at most one dot always succeeds, so the float arm has no
error path. -/
def tokeniseGo : Nat → List Token → List Nat → TokRes
  | 0, _, _ => .err "internal: fuel exhausted"
  | _ + 1, res, [] => .ok res
  | fuel + 1, res, c :: rest =>
    if isAsciiDigit c then
      match lexNumber false [] (c :: rest) with
      | none => .panic
      | some (found_decimal, num_str, rest') =>
        if found_decimal then tokeniseGo fuel (res ++ [Token.Float num_str]) rest'
        else if digitsToNat num_str ≤ i64Max then
          tokeniseGo fuel (res ++ [Token.Int (digitsToNat num_str)]) rest'
        else
          .err ("Failed to parse the integer " ++ codesToString num_str ++
            ". The error is number too large to fit in target type")
    else if c == 123 then tokeniseGo fuel (res ++ [Token.CurlyOpen]) rest
    else if c == 125 then tokeniseGo fuel (res ++ [Token.CurlyClose]) rest
    else if c == 91 then tokeniseGo fuel (res ++ [Token.BracketOpen]) rest
    else if c == 93 then tokeniseGo fuel (res ++ [Token.BracketClose]) rest
    else if c == 58 then tokeniseGo fuel (res ++ [Token.Colon]) rest
    else if c == 44 then tokeniseGo fuel (res ++ [Token.Comma]) rest
    else if c == 32 || c == 9 || c == 10 then tokeniseGo fuel res rest
    else if isAsciiLowercase c then
      match lexIdent [] (c :: rest) with
      | none => .panic
      | some (ident, rest') =>
        if ident = strB "true" then tokeniseGo fuel (res ++ [Token.Bool true]) rest'
        else if ident = strB "false" then tokeniseGo fuel (res ++ [Token.Bool false]) rest'
        else if ident = strB "null" then tokeniseGo fuel (res ++ [Token.Null]) rest'
        else tokeniseGo fuel res rest'
    else if c == 34 then
      match lexString false [] rest with
      | .error e => .err e
      | .ok (content, rest') => tokeniseGo fuel (res ++ [Token.String content]) rest'
    else .err ("Invalid character found in the JSON: " ++ codesToString [c])

/-- `Json::tokenise` (`src/json.rs:118`). -/
def Json.tokenise (data : Bytes) : TokRes := tokeniseGo (data.length + 1) [] data

mutual

/-- `Json::parse_value` (`src/json.rs:290`).  Fuel-indexed: every recursive
call moves the cursor forward by at least one token, so `tokens.length + 1`
fuel makes the fuel-exhausted arm unreachable. -/
def parseValue : Nat → List Token → Nat → Except String (Json × Nat)
  | 0, _, _ => .error "internal: fuel exhausted"
  | fuel + 1, data, ind =>
    if ind ≥ data.length then
      .error "Expected to find a JSON value, but the JSON representation ended before that"
    else
      match data.getD ind Token.Null with
      | Token.Bool val => .ok (Json.Bool val, ind)
      | Token.Null => .ok (Json.Null, ind)
      | Token.String val => .ok (Json.String val, ind)
      | Token.Int val => .ok (Json.Number (JsonNumber.Int val), ind)
      | Token.Float val => .ok (Json.Number (JsonNumber.Float val), ind)
      | Token.CurlyOpen =>
        if ind + 1 ≥ data.length then
          .error "Found \x7b first in the JSON, and expected key-value pairs after it, but the JSON representation ended"
        else if !(data.getD (ind + 1) Token.Null).isStringTok then
          .error "Expected a string value for the key of the field, after \x7b"
        else
          match objectLoop fuel data [] (ind + 1) with
          | .ok (m, cur) => .ok (Json.Object (JsonObject.from_map m), cur)
          | .error e => .error e
      | Token.BracketOpen =>
        if ind + 1 ≥ data.length then
          .error "Expected either values to be present after [ for the array, or for the array to end with a ], but the JSON representation ended before that"
        else
          match arrayLoop fuel data [] (ind + 1) with
          | .ok (lst, cur) => .ok (Json.List lst, cur)
          | .error e => .error e
      | _ => .error "Invalid symbol found in JSON"

/-- The `'object_loop: while let Token::String(key) = &data[cur]` loop of
`Json::parse_value` (`src/json.rs:314`).  A non-string token at `cur` exits
the loop normally, returning the map and cursor accumulated so far. -/
def objectLoop : Nat → List Token → List (List Nat × Json) → Nat →
    Except String (List (List Nat × Json) × Nat)
  | 0, _, _, _ => .error "internal: fuel exhausted"
  | fuel + 1, data, vals_map, cur =>
    match data.getD cur Token.Null with
    | Token.String key =>
      if cur + 1 ≥ data.length || !(data.getD (cur + 1) Token.Null).isColon then
        .error ("Expected : after the key string `" ++ codesToString key ++
          "`, before the value of the field")
      else if cur + 2 ≥ data.length then
        .error ("Expected a value after : for the value of the field with key `" ++
          codesToString key ++ "`")
      else
        match parseValue fuel data (cur + 2) with
        | .error err =>
          .error ("Error while parsing a value of the field with key `" ++
            codesToString key ++ "`. The error is " ++ err)
        | .ok (value, vcur) =>
          let vals_map' := insertAssoc vals_map key value
          if vcur + 1 ≥ data.length then
            .error "Expected either a , or a \x7d after the key-value pair, but the JSON ended"
          else if (data.getD (vcur + 1) Token.Null).isComma then
            if vcur + 2 ≥ data.length then
              .error "Expected a string after the , for the key of the next field. Trailing commas are not allowed in JSON"
            else objectLoop fuel data vals_map' (vcur + 2)
          else if (data.getD (vcur + 1) Token.Null).isCurlyClose then
            .ok (vals_map', vcur + 1)
          else
            .error "Expected either a , or a \x7d after the key-value pair, but found an invalid symbol"
    | _ => .ok (vals_map, cur)

/-- The `'array_loop: while !matches!(data[cur], Token::BracketClose)` loop
of `Json::parse_value` (`src/json.rs:367`).  After a comma the source
advances the cursor by one only, so the next iteration parses a value at the
comma position itself. -/
def arrayLoop : Nat → List Token → List Json → Nat → Except String (List Json × Nat)
  | 0, _, _, _ => .error "internal: fuel exhausted"
  | fuel + 1, data, list, cur =>
    if (data.getD cur Token.Null).isBracketClose then .ok (list, cur)
    else
      match parseValue fuel data cur with
      | .error err => .error err
      | .ok (val, vcur) =>
        let list' := list ++ [val]
        if vcur + 1 ≥ data.length then
          .error "Expected either , after the value or ] to end the array, but the JSON representation ended before that"
        else if (data.getD (vcur + 1) Token.Null).isComma then
          if vcur + 2 ≥ data.length then
            .error "Expected a value to be present after , in the array, but the JSON representation ended before that"
          else if (data.getD (vcur + 2) Token.Null).isBracketClose then
            .error "Trailing commas are not supported in arrays. Found ] immediately after a ,"
          else arrayLoop fuel data list' (vcur + 1)
        else if (data.getD (vcur + 1) Token.Null).isBracketClose then
          .ok (list', vcur + 1)
        else
          .error "Expected either , or ] after the array value, but found an invalid symbol"

end

/-- Decimal text of a natural number (`u64` Display). -/
def natDec (n : Nat) : List Nat := (Nat.toDigits 10 n).map Char.toNat

/-- Decimal text of an integer (`i64` Display). -/
def intDec (n : Int) : List Nat :=
  if n < 0 then 45 :: natDec n.natAbs else natDec n.toNat

mutual

/-- `impl Display for Json` (`src/json.rs:436`), at the byte/code-point
level.  Strings are wrapped in quotes with no re-escaping; a float renders
as the literal it carries (`f64` shortest-round-trip formatting is not
modelled; no theorem depends on float text).  Object member order follows
the association list; no theorem depends on member order. -/
def render : Json → List Nat
  | .Number (JsonNumber.Int n) => intDec n
  | .Number (JsonNumber.Float lit) => lit
  | .String s => [34] ++ s ++ [34]
  | .List xs => [91] ++ renderElems xs.length 0 xs ++ [93]
  | .Object (.mk m _) => [123, 32] ++ renderFields false m ++ [32, 125]
  | .Bool b => if b then strB "true" else strB "false"
  | .Null => strB "null"
  | .None => []

/-- The list arm of `impl Display for Json` (`src/json.rs:446`):
`for i in 0..list.len() { list[i].fmt(f)?; if i != (list.len()) { ", " } }`.
The separator condition compares against `list.len()` itself, which the
index never reaches, so it holds on every iteration. -/
def renderElems : Nat → Nat → List Json → List Nat
  | _, _, [] => []
  | total, i, x :: rest =>
    render x ++ (if i ≠ total then [44, 32] else []) ++ renderElems total (i + 1) rest

/-- `impl Display for JsonObject` (`src/json.rs:61`): members whose value is
`Json::None` are skipped; `", "` precedes every member after the first
rendered one. -/
def renderFields : Bool → List (List Nat × Json) → List Nat
  | _, [] => []
  | one_valid, (key, value) :: rest =>
    if value.isNoneVal then renderFields one_valid rest
    else (if one_valid then [44, 32] else []) ++ [34] ++ key ++ [34, 32, 58, 32] ++
      render value ++ renderFields true rest

end

/-- Result of `Json::parse`: `ok`/`err` are the Rust `Ok`/`Err`; `panic` is
an abort propagated from `tokenise`. -/
inductive ParseRes where
  | ok (val : Json)
  | err (msg : String)
  | panic

/-- `Json::parse` (`src/json.rs:403`). -/
def Json.parse (data : Bytes) : ParseRes :=
  match Json.tokenise data with
  | .panic => .panic
  | .err e => .err e
  | .ok tokens =>
    if tokens.length = 0 then
      .err "Could not parse a valid JSON value as the string representation is empty"
    else
      match parseValue (tokens.length + 1) tokens 0 with
      | .ok (val, last) =>
        if last = tokens.length - 1 then .ok val
        else .err ("Found the value " ++ codesToString (render val) ++
          " first in the JSON, but the JSON representation does not end after that")
      | .error e => .err e

/-- `HttpMethod` from `src/http.rs`. -/
inductive HttpMethod where
  | GET
  | POST
  | PUT
  | DELETE
  | PATCH
  | HEAD
  | OPTIONS
  | TRACE
  | CONNECT
deriving DecidableEq

/-- `HttpMethod::supports_request_body` (`src/http.rs:22`). -/
def HttpMethod.supports_request_body : HttpMethod → Boolean
  | .POST | .PUT | .PATCH | .DELETE | .OPTIONS => true
  | _ => false

/-- `impl FromStr for HttpMethod` (`src/http.rs:31`): strict table lookup
over the nine verbs. -/
def methodFromBytes (s : Bytes) : Except String HttpMethod :=
  if s = strB "GET" then .ok .GET
  else if s = strB "POST" then .ok .POST
  else if s = strB "PUT" then .ok .PUT
  else if s = strB "PATCH" then .ok .PATCH
  else if s = strB "DELETE" then .ok .DELETE
  else if s = strB "HEAD" then .ok .HEAD
  else if s = strB "OPTIONS" then .ok .OPTIONS
  else if s = strB "TRACE" then .ok .TRACE
  else if s = strB "CONNECT" then .ok .CONNECT
  else .error "Invalid HTTP Method"

/-- `ContentType` from `src/http.rs`. -/
inductive ContentType where
  | TextPlain
  | ApplicationJson
  | ApplicationOctetStream
  | None
deriving DecidableEq

/-- `impl FromStr for ContentType` (`src/http.rs:73`). -/
def contentTypeFromBytes (s : Bytes) : Except String ContentType :=
  if s = strB "text/plain" then .ok .TextPlain
  else if s = strB "application/json" then .ok .ApplicationJson
  else if s = strB "application/octet-stream" then .ok .ApplicationOctetStream
  else .error "Invalid content type"

/-- A UTF-8 continuation byte. -/
def isUtf8Cont (c : Nat) : Bool := 128 ≤ c ∧ c ≤ 191

/-- Allowed second byte of a three-byte UTF-8 sequence with lead byte `c`
(RFC 3629: `E0` takes `A0..BF`, `ED` takes `80..9F`, the rest `80..BF`). -/
def utf8Second3 (c c2 : Nat) : Bool :=
  if c = 224 then 160 ≤ c2 ∧ c2 ≤ 191
  else if c = 237 then 128 ≤ c2 ∧ c2 ≤ 159
  else isUtf8Cont c2

/-- Allowed second byte of a four-byte UTF-8 sequence with lead byte `c`
(RFC 3629: `F0` takes `90..BF`, `F4` takes `80..8F`, the rest `80..BF`). -/
def utf8Second4 (c c2 : Nat) : Bool :=
  if c = 240 then 144 ≤ c2 ∧ c2 ≤ 191
  else if c = 244 then 128 ≤ c2 ∧ c2 ≤ 143
  else isUtf8Cont c2

mutual

/-- `str::from_utf8` validity (RFC 3629 well-formed byte sequences, exactly
what the Rust standard library enforces). -/
def validUtf8 : List Nat → Bool
  | [] => true
  | c :: rest =>
    if c ≤ 127 then validUtf8 rest
    else if 194 ≤ c ∧ c ≤ 223 then validUtf8Tail1 rest
    else if 224 ≤ c ∧ c ≤ 239 then validUtf8Tail2 c rest
    else if 240 ≤ c ∧ c ≤ 244 then validUtf8Tail3 c rest
    else false
termination_by structural l => l

/-- Continuation byte of a two-byte sequence. -/
def validUtf8Tail1 : List Nat → Bool
  | c2 :: rest' => isUtf8Cont c2 && validUtf8 rest'
  | [] => false
termination_by structural l => l

/-- Trailing two bytes of a three-byte sequence with lead byte `c`. -/
def validUtf8Tail2 (c : Nat) : List Nat → Bool
  | c2 :: c3 :: rest' => utf8Second3 c c2 && isUtf8Cont c3 && validUtf8 rest'
  | _ => false
termination_by structural l => l

/-- Trailing three bytes of a four-byte sequence with lead byte `c`. -/
def validUtf8Tail3 (c : Nat) : List Nat → Bool
  | c2 :: c3 :: c4 :: rest' =>
    utf8Second4 c c2 && isUtf8Cont c3 && isUtf8Cont c4 && validUtf8 rest'
  | _ => false
termination_by structural l => l

end

/-- `str::split("\r\n")`, scanning left to right with an accumulator for
the current piece. -/
def splitCRLFGo (acc : Bytes) : Bytes → List Bytes
  | [] => [acc]
  | [c] => [acc ++ [c]]
  | c :: c2 :: rest =>
    if c = 13 ∧ c2 = 10 then acc :: splitCRLFGo [] rest
    else splitCRLFGo (acc ++ [c]) (c2 :: rest)

/-- `str::split(" ")`. -/
def splitSpaceGo (acc : Bytes) : Bytes → List Bytes
  | [] => [acc]
  | c :: rest =>
    if c = 32 then acc :: splitSpaceGo [] rest else splitSpaceGo (acc ++ [c]) rest

/-- `str::find(": ")`: byte index of the first occurrence. -/
def findColonSpace : Bytes → Option Nat
  | [] => none
  | [_] => none
  | c :: c2 :: rest =>
    if c = 58 ∧ c2 = 32 then some 0
    else (findColonSpace (c2 :: rest)).map (· + 1)

/-- `usize::MAX`; `str::parse::<usize>` fails above it. -/
def usizeMax : Nat := 18446744073709551615

/-- `str::parse::<usize>`: an optional leading `+`, then one or more ASCII
digits, rejecting values above `usize::MAX`. -/
def parseUsize (v : Bytes) : Option Nat :=
  let digits := match v with
    | 43 :: rest => rest
    | _ => v
  if digits ≠ [] ∧ digits.all isAsciiDigit then
    if digitsToNat digits ≤ usizeMax then some (digitsToNat digits) else none
  else none

/-- The mutable locals of the header loop of `Request::from_bytes`
(`src/http.rs:137`-`139`): `host`, `content_type`, `content_length`. -/
structure HeaderState where
  host : Option Bytes
  content_type : Option ContentType
  content_length : Option Nat
deriving DecidableEq

/-- One iteration of the `for line in headers[1..]` loop of
`Request::from_bytes` (`src/http.rs:156`-`189`): lines without `": "`, or
with an empty value, are skipped; `Host` stores the value verbatim;
`Content-Type` is parsed (and can fail) only when the method supports a
request body; `Content-Length` under the same condition, with a parse
failure stored as `None` rather than an error. -/
def processLine (method : HttpMethod) (st : HeaderState) (line : Bytes) :
    Except String HeaderState :=
  match findColonSpace line with
  | none => .ok st
  | some colon =>
    if colon + 2 = line.length then .ok st
    else
      let name := line.take colon
      let value := line.drop (colon + 2)
      if name = strB "Host" then .ok { st with host := some value }
      else if name = strB "Content-Type" then
        if method.supports_request_body then
          match contentTypeFromBytes value with
          | .ok cont_ty => .ok { st with content_type := some cont_ty }
          | .error err => .error err
        else .ok st
      else if name = strB "Content-Length" then
        if method.supports_request_body then .ok { st with content_length := parseUsize value }
        else .ok st
      else .ok st

/-- The whole header loop of `Request::from_bytes`, folding `processLine`
with the Rust early return on error. -/
def processLines (method : HttpMethod) (st : HeaderState) :
    List Bytes → Except String HeaderState
  | [] => .ok st
  | line :: rest =>
    match processLine method st line with
    | .ok st' => processLines method st' rest
    | .error e => .error e

/-- `Request` from `src/http.rs`.  `content` is always empty here:
`from_bytes` only reserves capacity for it. -/
structure Request where
  method : HttpMethod
  route : Bytes
  http_version : Bytes
  host : Bytes
  content_type : Option ContentType
  content_length : Option Nat
  content : Bytes
deriving DecidableEq

/-- `Request::from_bytes` (`src/http.rs:131`).  When the block has at most
one line the method local is still `None` and the method-missing error is
returned; after a successful request-line parse the method, route and
version locals are all set, so of the four field-missing errors only the
host one remains reachable.  The text of the `Utf8Error` interpolated on
invalid UTF-8 input is abstracted (no theorem depends on it). -/
def Request.from_bytes (bytes : Bytes) : Except String Request :=
  if validUtf8 bytes then
    let headers := splitCRLFGo [] bytes
    if headers.length > 1 then
      let first_header := splitSpaceGo [] (headers.getD 0 [])
      if first_header.length ≠ 3 then
        .error "The first header of this request is of invalid format"
      else
        match methodFromBytes (first_header.getD 0 []) with
        | .error err => .error err
        | .ok method =>
          match processLines method ⟨none, none, none⟩ headers.tail with
          | .error e => .error e
          | .ok st =>
            match st.host with
            | none => .error "Invalid request - Host is not found"
            | some host =>
              .ok { method := method, route := first_header.getD 1 [],
                    http_version := first_header.getD 2 [], host := host,
                    content_type := st.content_type,
                    content_length := st.content_length, content := [] }
    else .error "Invalid request - Method was not found"
  else .error "Error while decoding the header block as UTF-8"

/-- Header lines that `processLine` can never fail on: every line except a
`Content-Type`-named one whose value is unsupported while the method takes a
request body. -/
def lineSafe (method : HttpMethod) (line : Bytes) : Bool :=
  match findColonSpace line with
  | none => true
  | some colon =>
    if colon + 2 = line.length then true
    else if line.take colon = strB "Content-Type" ∧ method.supports_request_body = true then
      match contentTypeFromBytes (line.drop (colon + 2)) with
      | .ok _ => true
      | .error _ => false
    else true

/-- Header lines that assign the `host` local in `Request::from_bytes`. -/
def setsHost (line : Bytes) : Bool :=
  match findColonSpace line with
  | none => false
  | some colon => decide (¬colon + 2 = line.length ∧ line.take colon = strB "Host")

/-- `Vec::join("\r\n")`, the inverse of the header split, used to state
which raw block a given list of lines forms. -/
def joinCRLF : List Bytes → Bytes
  | [] => []
  | [l] => l
  | l :: rest => l ++ 13 :: 10 :: joinCRLF rest

/-- The per-connection mutable locals of the reading loop of
`handle_request` (`src/server.rs:33`-`39`): the accumulation buffer `buf`,
the 512-byte `temp_buff` (bytes beyond the last read are stale from earlier
reads), `content_index`, the `reading_content` flag, `pending_bytes`, and
the parsed request once the header block has been seen. -/
structure ConnState where
  buf : Bytes
  temp_buff : Bytes
  content_index : Nat
  reading_content : Bool
  pending_bytes : Nat
  req : Option Request
deriving DecidableEq

/-- Outcome of one iteration of the `while !req_complete` loop of
`handle_request`: the loop continues, `req_complete` was set, the function
returned `Err` early, or a `usize` subtraction underflowed (aborting a
debug build). -/
inductive StepRes where
  | next (s : ConnState)
  | complete (s : ConnState)
  | fail (msg : String)
  | panic
deriving DecidableEq

/-- `temp_str.find("\r\n\r\n")`: byte index of the first header
terminator. -/
def findHeaderEnd : Bytes → Option Nat
  | 13 :: 10 :: 13 :: 10 :: _ => some 0
  | _ :: rest => (findHeaderEnd rest).map (· + 1)
  | [] => none

/-- The state on entry to the loop (`src/server.rs:33`-`39`): empty buffer,
zero-initialised `temp_buff`, not in the body, nothing pending. -/
def initConnState : ConnState :=
  { buf := [], temp_buff := List.replicate 512 0, content_index := 0,
    reading_content := false, pending_bytes := 0, req := none }

/-- One iteration of the reading loop of `handle_request`
(`src/server.rs:40`-`90`), consuming the bytes one `stream.read` deposits at
the front of `temp_buff`.  An empty chunk is the peer-disconnect early
return.  The source computes `buf.len() - (bytes_read - end_index)`,
`bytes_read - end_index - header_end.len()` and
`pending_bytes -= ...` on `usize`, so each subtraction that could underflow
(aborting a debug build) is guarded and reported as `panic`; on the
non-panic paths truncated `Nat` subtraction agrees with `usize`
subtraction.  The text interpolated from the `Utf8Error` on invalid UTF-8
is abstracted. -/
def step (s : ConnState) (chunk : Bytes) : StepRes :=
  if chunk.length = 0 then .fail "Client disconnected"
  else
    let bytes_read := chunk.length
    let buf' := s.buf ++ chunk
    let tb' := chunk ++ s.temp_buff.drop chunk.length
    if validUtf8 tb' then
      if !s.reading_content ∧ (findHeaderEnd tb').isSome then
        let end_index := (findHeaderEnd tb').getD 0
        if bytes_read < end_index then .panic
        else
          let header_end_index := buf'.length - (bytes_read - end_index)
          let content_index' := header_end_index + 4
          match Request.from_bytes (buf'.take header_end_index) with
          | .error e => .fail e
          | .ok head =>
            match head.content_length with
            | some cl =>
              if bytes_read < end_index + 4 then .panic
              else if cl < bytes_read - end_index - 4 then .panic
              else
                let pending' := cl - (bytes_read - end_index - 4)
                if pending' = 0 then
                  .complete { buf := buf', temp_buff := tb',
                              content_index := content_index',
                              reading_content := false, pending_bytes := 0,
                              req := some head }
                else
                  .next { buf := buf', temp_buff := tb',
                          content_index := content_index',
                          reading_content := true, pending_bytes := pending',
                          req := some head }
            | none =>
              if s.pending_bytes = 0 then
                .complete { buf := buf', temp_buff := tb',
                            content_index := content_index',
                            reading_content := false, pending_bytes := 0,
                            req := some head }
              else
                .next { buf := buf', temp_buff := tb',
                        content_index := content_index',
                        reading_content := s.reading_content,
                        pending_bytes := s.pending_bytes, req := some head }
      else
        let pending' :=
          if s.reading_content ∧ s.pending_bytes > 0 then
            if bytes_read < s.pending_bytes then s.pending_bytes - bytes_read else 0
          else s.pending_bytes
        if pending' = 0 then
          .complete { buf := buf', temp_buff := tb', content_index := s.content_index,
                      reading_content := false, pending_bytes := 0, req := s.req }
        else
          .next { buf := buf', temp_buff := tb', content_index := s.content_index,
                  reading_content := s.reading_content, pending_bytes := pending',
                  req := s.req }
    else .fail "Error while converting the request content to a string slice"

theorem lookupAssoc_insertAssoc (m : List (List Nat × Json)) (k : List Nat) (v : Json) :
    lookupAssoc (insertAssoc m k v) k = some v := by
  induction m with
  | nil => simp [insertAssoc, lookupAssoc]
  | cons hd tl ih =>
    obtain ⟨k', v'⟩ := hd
    by_cases h : k' = k
    · simp [insertAssoc, h, lookupAssoc]
    · simp [insertAssoc, h, lookupAssoc, ih]

/-- C8: read access on a `JsonObject` returns the stored value when the key
exists and the shared `Json::None` sentinel when it does not, and in both
cases leaves the key-value mapping unchanged. -/
theorem index_read_no_mutation (m : List (List Nat × Json)) (k : List Nat) :
    ((JsonObject.from_map m).index k).2 = JsonObject.from_map m ∧
    (∀ v, lookupAssoc m k = some v → ((JsonObject.from_map m).index k).1 = v) ∧
    (lookupAssoc m k = none → ((JsonObject.from_map m).index k).1 = Json.None) := by
  refine ⟨rfl, ?_, ?_⟩
  · intro v hv
    simp [JsonObject.index, JsonObject.from_map, JsonObject.map, hv]
  · intro hv
    simp [JsonObject.index, JsonObject.from_map, JsonObject.map, JsonObject.noneVal, hv]

/-- C8 witness: read access on the concrete object `{x ↦ 1}` at a present
and at an absent key. -/
theorem index_read_no_mutation_witness :
    (lookupAssoc [(strB "x", Json.Number (JsonNumber.Int 1))] (strB "x") =
      some (Json.Number (JsonNumber.Int 1)) ∧
     ((JsonObject.from_map [(strB "x", Json.Number (JsonNumber.Int 1))]).index (strB "x")).1 =
      Json.Number (JsonNumber.Int 1)) ∧
    (lookupAssoc [(strB "x", Json.Number (JsonNumber.Int 1))] (strB "y") = none ∧
     ((JsonObject.from_map [(strB "x", Json.Number (JsonNumber.Int 1))]).index (strB "y")).1 =
      Json.None) :=
  ⟨⟨rfl, (index_read_no_mutation [(strB "x", Json.Number (JsonNumber.Int 1))] (strB "x")).2.1
      (Json.Number (JsonNumber.Int 1)) rfl⟩,
   ⟨rfl, (index_read_no_mutation [(strB "x", Json.Number (JsonNumber.Int 1))] (strB "y")).2.2
      rfl⟩⟩

/-- C7: write-intent access on a `JsonObject`: an existing key yields a
handle to the stored value with the mapping unchanged; an absent key first
gets a `Json::None` placeholder inserted and the handle points at it, so the
key is present afterwards. -/
theorem index_mut_insert_on_probe (m : List (List Nat × Json)) (k : List Nat) :
    (∀ v, lookupAssoc m k = some v →
      ((JsonObject.from_map m).index_mut k).1.map = m ∧
      ((JsonObject.from_map m).index_mut k).2 = v) ∧
    (lookupAssoc m k = none →
      ((JsonObject.from_map m).index_mut k).1.map = insertAssoc m k Json.None ∧
      ((JsonObject.from_map m).index_mut k).2 = Json.None) ∧
    (lookupAssoc ((JsonObject.from_map m).index_mut k).1.map k).isSome = true := by
  refine ⟨?_, ?_, ?_⟩
  · intro v hv
    simp [JsonObject.index_mut, JsonObject.from_map, JsonObject.map, hv]
  · intro hv
    simp [JsonObject.index_mut, JsonObject.from_map, JsonObject.map, hv,
      lookupAssoc_insertAssoc]
  · by_cases hv : (lookupAssoc m k).isSome
    · obtain ⟨v, hv'⟩ := Option.isSome_iff_exists.mp hv
      simp [JsonObject.index_mut, JsonObject.from_map, JsonObject.map, hv']
    · have hv' : lookupAssoc m k = none := Option.not_isSome_iff_eq_none.mp hv
      simp [JsonObject.index_mut, JsonObject.from_map, JsonObject.map, hv',
        lookupAssoc_insertAssoc]

/-- C7 witness: write-intent access on the concrete object `{x ↦ 1}` at an
absent key `y` inserts the placeholder and makes `y` present. -/
theorem index_mut_insert_on_probe_witness :
    lookupAssoc [(strB "x", Json.Number (JsonNumber.Int 1))] (strB "y") = none ∧
    ((JsonObject.from_map [(strB "x", Json.Number (JsonNumber.Int 1))]).index_mut
        (strB "y")).1.map =
      insertAssoc [(strB "x", Json.Number (JsonNumber.Int 1))] (strB "y") Json.None ∧
    ((JsonObject.from_map [(strB "x", Json.Number (JsonNumber.Int 1))]).index_mut
        (strB "y")).2 = Json.None :=
  ⟨rfl,
   ((index_mut_insert_on_probe [(strB "x", Json.Number (JsonNumber.Int 1))] (strB "y")).2.1
      rfl).1,
   ((index_mut_insert_on_probe [(strB "x", Json.Number (JsonNumber.Int 1))] (strB "y")).2.1
      rfl).2⟩

/-- C10: the claim says `Json::tokenise` returns `Ok` or `Err` on every
input without indexing past the buffer end.  The code contradicts it: on the
inputs `123`, `1.5`, `true` and `null` the digit-consuming and
identifier-consuming loops evaluate `data[cur]` at `cur = data.len()` and
the process aborts with an index-out-of-bounds panic. -/
theorem tokenise_panics_at_end :
    Json.tokenise (strB "123") = TokRes.panic ∧
    Json.tokenise (strB "1.5") = TokRes.panic ∧
    Json.tokenise (strB "true") = TokRes.panic ∧
    Json.tokenise (strB "null") = TokRes.panic :=
  ⟨rfl, rfl, rfl, rfl⟩

/-- C1: the claim says `parse(render(x))` succeeds for every scalar.  The
code contradicts it: rendering the integer scalar `5` yields the text `5`,
and tokenising that text runs the number loop off the end of the buffer, so
`Json::parse` aborts instead of succeeding; booleans and `null` abort the
same way in the identifier loop.  Only the string scalars, whose lexing loop
is bounds-checked, round-trip. -/
theorem parse_render_scalar_panics :
    Json.parse (render (Json.Number (JsonNumber.Int 5))) = ParseRes.panic ∧
    Json.parse (render (Json.Bool true)) = ParseRes.panic ∧
    Json.parse (render Json.Null) = ParseRes.panic ∧
    Json.parse (render (Json.String (strB "abc"))) = ParseRes.ok (Json.String (strB "abc")) :=
  ⟨rfl, rfl, rfl, rfl⟩

/-- C3: the claim says a comma immediately followed by the closing delimiter
is a hard error in every array and object position.  Arrays do reject it
(`[1,]` hits the dedicated trailing-comma error; `[1,2,]` fails earlier
because the array loop re-parses the comma position as a value), but the
object loop exits its `while let` silently when the token after the comma is
`}` , so `{"a":1,}` parses successfully — contradicting the claim and
the code's own `Trailing commas are not allowed in JSON` diagnostic. -/
theorem parse_object_trailing_comma_accepted :
    Json.parse (strB "[1,]") =
      ParseRes.err "Trailing commas are not supported in arrays. Found ] immediately after a ," ∧
    Json.parse (strB "[1,2,]") = ParseRes.err "Invalid symbol found in JSON" ∧
    Json.parse (strB "\x7b\"a\":1,\x7d") =
      ParseRes.ok (Json.Object (JsonObject.from_map [(strB "a", Json.Number (JsonNumber.Int 1))])) :=
  ⟨rfl, rfl, rfl⟩

/-- C6: the empty array `[]` parses to the empty list, and the empty object
`{}` is rejected because an object must begin with a string key
immediately after the opening brace. -/
theorem parse_empty_array_ok_empty_object_err :
    Json.parse (strB "[]") = ParseRes.ok (Json.List []) ∧
    Json.parse (strB "\x7b\x7d") =
      ParseRes.err "Expected a string value for the key of the field, after \x7b" :=
  ⟨rfl, rfl⟩

/-- C9: the claim says list rendering separates elements with `", "` only
between consecutive elements, with nothing after the last.  The code
contradicts it: the guard `i != list.len()` is true for every index, so a
separator follows every element, last included — `[1]` renders as `[1, ]`
and `[1, 2]` as `[1, 2, ]`. -/
theorem display_list_trailing_separator :
    render (Json.List [Json.Number (JsonNumber.Int 1)]) = strB "[1, ]" ∧
    render (Json.List [Json.Number (JsonNumber.Int 1), Json.Number (JsonNumber.Int 2)]) =
      strB "[1, 2, ]" :=
  ⟨rfl, rfl⟩

theorem processLine_nonbody (method : HttpMethod) (st st' : HeaderState) (line : Bytes)
    (hm : method.supports_request_body = false)
    (h : processLine method st line = .ok st') :
    st'.content_type = st.content_type ∧ st'.content_length = st.content_length := by
  unfold processLine at h
  simp only [hm, Bool.false_eq_true, if_false] at h
  split at h
  · simp only [Except.ok.injEq] at h
    subst h; exact ⟨rfl, rfl⟩
  · split at h
    · simp only [Except.ok.injEq] at h
      subst h; exact ⟨rfl, rfl⟩
    · split at h
      · simp only [Except.ok.injEq] at h
        subst h; exact ⟨rfl, rfl⟩
      · split at h
        · simp only [Except.ok.injEq] at h
          subst h; exact ⟨rfl, rfl⟩
        · split at h
          · simp only [Except.ok.injEq] at h
            subst h; exact ⟨rfl, rfl⟩
          · simp only [Except.ok.injEq] at h
            subst h; exact ⟨rfl, rfl⟩

theorem processLines_nonbody (method : HttpMethod)
    (hm : method.supports_request_body = false) :
    ∀ (lines : List Bytes) (st st' : HeaderState),
      processLines method st lines = .ok st' →
      st'.content_type = st.content_type ∧ st'.content_length = st.content_length := by
  intro lines
  induction lines with
  | nil =>
    intro st st' h
    simp only [processLines, Except.ok.injEq] at h
    subst h; exact ⟨rfl, rfl⟩
  | cons line rest ih =>
    intro st st' h
    unfold processLines at h
    cases hpl : processLine method st line with
    | ok st1 =>
      rw [hpl] at h
      obtain ⟨h1, h2⟩ := processLine_nonbody method st st1 line hm hpl
      obtain ⟨h3, h4⟩ := ih st1 st' h
      exact ⟨h3.trans h1, h4.trans h2⟩
    | error e =>
      rw [hpl] at h
      simp at h

/-- C4: whenever `Request::from_bytes` succeeds and the resulting method is
GET, HEAD, TRACE or CONNECT, the result carries `content_type = None` and
`content_length = None`, whatever header lines the wire included. -/
theorem from_bytes_nonbody_no_content_fields (bytes : Bytes) (r : Request)
    (hok : Request.from_bytes bytes = .ok r)
    (hm : r.method = .GET ∨ r.method = .HEAD ∨ r.method = .TRACE ∨ r.method = .CONNECT) :
    r.content_type = none ∧ r.content_length = none := by
  unfold Request.from_bytes at hok
  split at hok
  · dsimp only at hok
    split at hok
    · split at hok
      · simp at hok
      · cases hmeth : methodFromBytes
            ((splitSpaceGo [] ((splitCRLFGo [] bytes).getD 0 [])).getD 0 []) with
        | error e => rw [hmeth] at hok; simp at hok
        | ok method =>
          rw [hmeth] at hok
          dsimp only at hok
          cases hpl : processLines method ⟨none, none, none⟩ (splitCRLFGo [] bytes).tail with
          | error e => rw [hpl] at hok; simp at hok
          | ok st =>
            rw [hpl] at hok
            dsimp only at hok
            cases hh : st.host with
            | none => rw [hh] at hok; simp at hok
            | some host =>
              rw [hh] at hok
              dsimp only at hok
              simp only [Except.ok.injEq] at hok
              subst hok
              have hsup : method.supports_request_body = false := by
                rcases hm with h | h | h | h <;>
                  simp only [Request.method] at h <;> subst h <;> rfl
              obtain ⟨h1, h2⟩ := processLines_nonbody method hsup _ _ _ hpl
              exact ⟨h1, h2⟩
    · simp at hok
  · simp at hok

/-- C4 witness: a GET request whose wire block carries both a
`Content-Length` and a `Content-Type` line still parses with both fields
absent. -/
theorem from_bytes_nonbody_no_content_fields_witness :
    Request.from_bytes
      (strB "GET / HTTP/1.1\r\nHost: a\r\nContent-Length: 5\r\nContent-Type: application/json") =
      .ok { method := .GET, route := strB "/", http_version := strB "HTTP/1.1",
            host := strB "a", content_type := none, content_length := none,
            content := [] } ∧
    ({ method := .GET, route := strB "/", http_version := strB "HTTP/1.1",
       host := strB "a", content_type := none, content_length := none,
       content := [] } : Request).content_type = none ∧
    ({ method := .GET, route := strB "/", http_version := strB "HTTP/1.1",
       host := strB "a", content_type := none, content_length := none,
       content := [] } : Request).content_length = none :=
  ⟨rfl,
   (from_bytes_nonbody_no_content_fields
      (strB "GET / HTTP/1.1\r\nHost: a\r\nContent-Length: 5\r\nContent-Type: application/json")
      _ rfl (Or.inl rfl)).1,
   (from_bytes_nonbody_no_content_fields
      (strB "GET / HTTP/1.1\r\nHost: a\r\nContent-Length: 5\r\nContent-Type: application/json")
      _ rfl (Or.inl rfl)).2⟩

/-- C5 counterexample: this header block has a well-formed request line
(three space-separated tokens, recognized method) and a Host header line,
yet `Request::from_bytes` fails, because the block also carries a
`Content-Type` line with an unsupported value and the POST method makes that
line's parse failure a hard error. -/
theorem from_bytes_content_type_counterexample :
    Request.from_bytes (strB "POST /x HTTP/1.1\r\nHost: a\r\nContent-Type: bogus") =
      .error "Invalid content type" := rfl

theorem splitSpaceGo_no_space :
    ∀ (p : Bytes), (∀ c ∈ p, c ≠ 32) → ∀ acc, splitSpaceGo acc p = [acc ++ p] := by
  intro p
  induction p with
  | nil => intro _ acc; simp [splitSpaceGo]
  | cons c rest ih =>
    intro h acc
    have hc : ¬c = 32 := h c (by simp)
    simp only [splitSpaceGo, if_neg hc]
    rw [ih (fun x hx => h x (by simp [hx])) (acc ++ [c])]
    simp

theorem splitSpaceGo_append :
    ∀ (p : Bytes), (∀ c ∈ p, c ≠ 32) → ∀ (rest : Bytes) (acc : Bytes),
      splitSpaceGo acc (p ++ 32 :: rest) = (acc ++ p) :: splitSpaceGo [] rest := by
  intro p
  induction p with
  | nil => intro _ rest acc; simp [splitSpaceGo]
  | cons c p' ih =>
    intro h rest acc
    have hc : ¬c = 32 := h c (by simp)
    simp only [List.cons_append, splitSpaceGo, if_neg hc, List.append_eq]
    rw [ih (fun x hx => h x (by simp [hx])) rest (acc ++ [c])]
    simp

theorem splitCRLFGo_no13 :
    ∀ (p : Bytes), (∀ c ∈ p, c ≠ 13) → ∀ acc, splitCRLFGo acc p = [acc ++ p] := by
  intro p
  induction p with
  | nil => intro _ acc; simp [splitCRLFGo]
  | cons c p' ih =>
    intro h acc
    have hc : ¬c = 13 := h c (by simp)
    cases p' with
    | nil => simp [splitCRLFGo]
    | cons c2 rest =>
      have hcc : ¬(c = 13 ∧ c2 = 10) := fun hx => hc hx.1
      simp only [splitCRLFGo, if_neg hcc]
      rw [ih (fun x hx => h x (by simp [hx])) (acc ++ [c])]
      simp

theorem splitCRLFGo_append :
    ∀ (p : Bytes), (∀ c ∈ p, c ≠ 13) → ∀ (rest : Bytes) (acc : Bytes),
      splitCRLFGo acc (p ++ 13 :: 10 :: rest) = (acc ++ p) :: splitCRLFGo [] rest := by
  intro p
  induction p with
  | nil => intro _ rest acc; simp [splitCRLFGo]
  | cons c p' ih =>
    intro h rest acc
    have hc : ¬c = 13 := h c (by simp)
    have hne : p' ++ 13 :: 10 :: rest ≠ [] := by simp
    cases hp : p' ++ 13 :: 10 :: rest with
    | nil => exact absurd hp hne
    | cons d ds =>
      have hd : ¬(c = 13 ∧ d = 10) := fun hx => hc hx.1
      simp only [List.cons_append, hp, splitCRLFGo, if_neg hd]
      rw [← hp, ih (fun x hx => h x (by simp [hx])) rest (acc ++ [c])]
      simp

theorem splitCRLF_joinCRLF :
    ∀ (ls : List Bytes), ls ≠ [] → (∀ l ∈ ls, ∀ c ∈ l, c ≠ 13) →
      splitCRLFGo [] (joinCRLF ls) = ls := by
  intro ls
  induction ls with
  | nil => intro hne _; exact absurd rfl hne
  | cons l rest ih =>
    intro _ h
    cases rest with
    | nil =>
      simp only [joinCRLF]
      rw [splitCRLFGo_no13 l (h l (by simp)) []]
      simp
    | cons l2 rest' =>
      simp only [joinCRLF]
      rw [splitCRLFGo_append l (h l (by simp)) (joinCRLF (l2 :: rest')) []]
      rw [ih (by simp) (fun x hx => h x (by simp [hx]))]
      simp

theorem mem_joinCRLF :
    ∀ (ls : List Bytes) (c : Nat), c ∈ joinCRLF ls →
      c = 13 ∨ c = 10 ∨ ∃ l ∈ ls, c ∈ l := by
  intro ls
  induction ls with
  | nil => intro c hc; simp [joinCRLF] at hc
  | cons l rest ih =>
    intro c hc
    cases rest with
    | nil =>
      simp only [joinCRLF] at hc
      exact Or.inr (Or.inr ⟨l, by simp, hc⟩)
    | cons l2 rest' =>
      simp only [joinCRLF, List.mem_append, List.mem_cons] at hc
      rcases hc with h1 | h2 | h3 | h4
      · exact Or.inr (Or.inr ⟨l, by simp, h1⟩)
      · exact Or.inl h2
      · exact Or.inr (Or.inl h3)
      · rcases ih c h4 with h | h | ⟨l', hl', hc'⟩
        · exact Or.inl h
        · exact Or.inr (Or.inl h)
        · exact Or.inr (Or.inr ⟨l', by simp [hl'], hc'⟩)

theorem validUtf8_of_ascii :
    ∀ (l : Bytes), (∀ c ∈ l, c < 128) → validUtf8 l = true := by
  intro l
  induction l with
  | nil => intro _; rfl
  | cons c rest ih =>
    intro h
    have hc : c ≤ 127 := by have := h c (by simp); omega
    rw [validUtf8, if_pos hc]
    exact ih (fun x hx => h x (by simp [hx]))

theorem methodFromBytes_ok_bytes (mB : Bytes) (m : HttpMethod)
    (h : methodFromBytes mB = .ok m) :
    ∀ c ∈ mB, c < 128 ∧ c ≠ 32 ∧ c ≠ 13 ∧ c ≠ 10 := by
  unfold methodFromBytes at h
  split_ifs at h with h1 h2 h3 h4 h5 h6 h7 h8 h9 <;>
    (subst_vars; decide)

theorem findColonSpace_host (hv : Bytes) :
    findColonSpace (strB "Host: " ++ hv) = some 4 := by
  have h0 : strB "Host: " ++ hv = 72 :: 111 :: 115 :: 116 :: 58 :: 32 :: hv := rfl
  rw [h0]
  simp [findColonSpace]

theorem processLine_host (method : HttpMethod) (st : HeaderState) (hv : Bytes)
    (hne : hv ≠ []) :
    processLine method st (strB "Host: " ++ hv) = .ok { st with host := some hv } := by
  have hlen : ¬(4 + 2 = (strB "Host: " ++ hv).length) := by
    cases hv with
    | nil => exact absurd rfl hne
    | cons a t => simp [strB]
  unfold processLine
  rw [findColonSpace_host]
  dsimp only
  rw [if_neg hlen]
  rw [show (strB "Host: " ++ hv).take 4 = strB "Host" from rfl]
  rw [if_pos rfl]
  rw [show (strB "Host: " ++ hv).drop (4 + 2) = hv from rfl]

theorem setsHost_host (hv : Bytes) (hne : hv ≠ []) :
    setsHost (strB "Host: " ++ hv) = true := by
  have hlen : ¬(4 + 2 = (strB "Host: " ++ hv).length) := by
    cases hv with
    | nil => exact absurd rfl hne
    | cons a t => simp [strB]
  unfold setsHost
  rw [findColonSpace_host]
  dsimp only
  rw [show (strB "Host: " ++ hv).take 4 = strB "Host" from rfl]
  simp only [decide_eq_true_eq]
  exact ⟨hlen, trivial⟩

theorem processLine_ok_of_lineSafe (method : HttpMethod) (st : HeaderState) (line : Bytes)
    (h : lineSafe method line = true) :
    ∃ st', processLine method st line = .ok st' ∧
      (setsHost line = false → st'.host = st.host) := by
  cases hfc : findColonSpace line with
  | none =>
    refine ⟨st, ?_, fun _ => rfl⟩
    unfold processLine
    rw [hfc]
  | some colon =>
    by_cases hlen : colon + 2 = line.length
    · refine ⟨st, ?_, fun _ => rfl⟩
      unfold processLine
      rw [hfc]
      dsimp only
      rw [if_pos hlen]
    · by_cases hhost : line.take colon = strB "Host"
      · refine ⟨{ st with host := some (line.drop (colon + 2)) }, ?_, ?_⟩
        · unfold processLine
          rw [hfc]
          dsimp only
          rw [if_neg hlen, if_pos hhost]
        · intro hsh
          exfalso
          unfold setsHost at hsh
          rw [hfc] at hsh
          dsimp only at hsh
          simp only [decide_eq_false_iff_not] at hsh
          exact hsh ⟨hlen, hhost⟩
      · by_cases hct : line.take colon = strB "Content-Type"
        · by_cases hsup : method.supports_request_body = true
          · unfold lineSafe at h
            rw [hfc] at h
            dsimp only at h
            rw [if_neg hlen, if_pos ⟨hct, hsup⟩] at h
            cases hcv : contentTypeFromBytes (line.drop (colon + 2)) with
            | error e => rw [hcv] at h; simp at h
            | ok cont_ty =>
              refine ⟨{ st with content_type := some cont_ty }, ?_, fun _ => rfl⟩
              unfold processLine
              rw [hfc]
              dsimp only
              rw [if_neg hlen, if_neg hhost, if_pos hct, if_pos hsup, hcv]
          · refine ⟨st, ?_, fun _ => rfl⟩
            unfold processLine
            rw [hfc]
            dsimp only
            rw [if_neg hlen, if_neg hhost, if_pos hct, if_neg hsup]
        · by_cases hcl : line.take colon = strB "Content-Length"
          · by_cases hsup : method.supports_request_body = true
            · refine ⟨{ st with content_length := parseUsize (line.drop (colon + 2)) }, ?_,
                fun _ => rfl⟩
              unfold processLine
              rw [hfc]
              dsimp only
              rw [if_neg hlen, if_neg hhost, if_neg hct, if_pos hcl, if_pos hsup]
            · refine ⟨st, ?_, fun _ => rfl⟩
              unfold processLine
              rw [hfc]
              dsimp only
              rw [if_neg hlen, if_neg hhost, if_neg hct, if_pos hcl, if_neg hsup]
          · refine ⟨st, ?_, fun _ => rfl⟩
            unfold processLine
            rw [hfc]
            dsimp only
            rw [if_neg hlen, if_neg hhost, if_neg hct, if_neg hcl]

theorem processLines_ok_of_safe (method : HttpMethod) :
    ∀ (lines : List Bytes) (st : HeaderState),
      (∀ l ∈ lines, lineSafe method l = true) →
      ∃ st', processLines method st lines = .ok st' ∧
        ((∀ l ∈ lines, setsHost l = false) → st'.host = st.host) := by
  intro lines
  induction lines with
  | nil => intro st _; exact ⟨st, rfl, fun _ => rfl⟩
  | cons l rest ih =>
    intro st hsafe
    obtain ⟨st1, h1, hh1⟩ := processLine_ok_of_lineSafe method st l (hsafe l (by simp))
    obtain ⟨st', h2, hh2⟩ := ih st1 (fun x hx => hsafe x (by simp [hx]))
    refine ⟨st', ?_, ?_⟩
    · unfold processLines
      rw [h1]
      exact h2
    · intro hall
      rw [hh2 (fun x hx => hall x (by simp [hx])), hh1 (hall l (by simp))]

theorem processLines_append (method : HttpMethod) :
    ∀ (a b : List Bytes) (st : HeaderState),
      processLines method st (a ++ b) =
        match processLines method st a with
        | .ok st' => processLines method st' b
        | .error e => .error e := by
  intro a
  induction a with
  | nil => intro b st; rfl
  | cons l rest ih =>
    intro b st
    simp only [List.cons_append, processLines]
    cases processLine method st l with
    | ok st1 => exact ih b st1
    | error e => rfl

/-- C5 (amended): the claim must exclude header blocks that make the parser
fail for reasons other than the request line and Host line — concretely, a
`Content-Type` line with an unsupported value under a body-supporting
method (see the counterexample), and a Host line with an empty value, which
the loop skips.  For every header block consisting of a request line
`method SP route SP version` (recognized method; route and version free of
space, CR and LF bytes), followed by ASCII header lines free of CR and LF,
among them a `Host` line with a nonempty value, where every other line is
one `processLine` cannot fail on and no line after the Host line reassigns
the host, `Request::from_bytes` succeeds and the method, route,
http_version and host fields of the result exactly equal the corresponding
strings of the input. -/
theorem from_bytes_wellformed_fields_amended
    (mB rt vr hv : Bytes) (m : HttpMethod) (pre post : List Bytes)
    (hm : methodFromBytes mB = .ok m)
    (hrt : ∀ c ∈ rt, c < 128 ∧ c ≠ 32 ∧ c ≠ 13 ∧ c ≠ 10)
    (hvr : ∀ c ∈ vr, c < 128 ∧ c ≠ 32 ∧ c ≠ 13 ∧ c ≠ 10)
    (hhvne : hv ≠ []) (hhv : ∀ c ∈ hv, c < 128 ∧ c ≠ 13 ∧ c ≠ 10)
    (hlines : ∀ l ∈ pre ++ post,
      (∀ c ∈ l, c < 128 ∧ c ≠ 13 ∧ c ≠ 10) ∧ lineSafe m l = true)
    (hpost : ∀ l ∈ post, setsHost l = false) :
    ∃ ct cl, Request.from_bytes
      (joinCRLF ((mB ++ (32 :: (rt ++ (32 :: vr)))) ::
        (pre ++ [strB "Host: " ++ hv] ++ post))) =
      .ok { method := m, route := rt, http_version := vr, host := hv,
            content_type := ct, content_length := cl, content := [] } := by
  have hmb := methodFromBytes_ok_bytes mB m hm
  have hreq13 : ∀ c ∈ mB ++ (32 :: (rt ++ (32 :: vr))), c ≠ 13 := by
    intro c hc
    simp only [List.mem_append, List.mem_cons] at hc
    rcases hc with h | h | h | h | h
    · exact (hmb c h).2.2.1
    · subst h; decide
    · exact (hrt c h).2.2.1
    · subst h; decide
    · exact (hvr c h).2.2.1
  have hhost13 : ∀ c ∈ strB "Host: " ++ hv, c ≠ 13 := by
    intro c hc
    simp only [List.mem_append] at hc
    rcases hc with h | h
    · have h6 : c = 72 ∨ c = 111 ∨ c = 115 ∨ c = 116 ∨ c = 58 ∨ c = 32 := by
        simpa [strB] using h
      rcases h6 with rfl | rfl | rfl | rfl | rfl | rfl <;> decide
    · exact (hhv c h).2.1
  have hlines13 : ∀ l ∈ (mB ++ (32 :: (rt ++ (32 :: vr)))) ::
      (pre ++ [strB "Host: " ++ hv] ++ post), ∀ c ∈ l, c ≠ 13 := by
    intro l hl
    simp only [List.mem_cons, List.mem_append, List.mem_singleton, List.not_mem_nil,
      or_false] at hl
    rcases hl with rfl | (h | rfl) | h
    · exact hreq13
    · exact fun c hc => ((hlines l (by simp [h])).1 c hc).2.1
    · exact hhost13
    · exact fun c hc => ((hlines l (by simp [h])).1 c hc).2.1
  have hsplit : splitCRLFGo [] (joinCRLF ((mB ++ (32 :: (rt ++ (32 :: vr)))) ::
      (pre ++ [strB "Host: " ++ hv] ++ post))) =
      (mB ++ (32 :: (rt ++ (32 :: vr)))) :: (pre ++ [strB "Host: " ++ hv] ++ post) :=
    splitCRLF_joinCRLF _ (by simp) hlines13
  have hascii : ∀ c ∈ joinCRLF ((mB ++ (32 :: (rt ++ (32 :: vr)))) ::
      (pre ++ [strB "Host: " ++ hv] ++ post)), c < 128 := by
    intro c hc
    rcases mem_joinCRLF _ c hc with rfl | rfl | ⟨l, hl, hcl⟩
    · decide
    · decide
    · simp only [List.mem_cons, List.mem_append, List.mem_singleton, List.not_mem_nil,
        or_false] at hl
      rcases hl with rfl | (h | rfl) | h
      · simp only [List.mem_append, List.mem_cons] at hcl
        rcases hcl with h | h | h | h | h
        · exact (hmb c h).1
        · subst h; decide
        · exact (hrt c h).1
        · subst h; decide
        · exact (hvr c h).1
      · exact ((hlines l (by simp [h])).1 c hcl).1
      · simp only [List.mem_append] at hcl
        rcases hcl with h | h
        · have h6 : c = 72 ∨ c = 111 ∨ c = 115 ∨ c = 116 ∨ c = 58 ∨ c = 32 := by
            simpa [strB] using h
          rcases h6 with rfl | rfl | rfl | rfl | rfl | rfl <;> decide
        · exact (hhv c h).1
      · exact ((hlines l (by simp [h])).1 c hcl).1
  have hvalid : validUtf8 (joinCRLF ((mB ++ (32 :: (rt ++ (32 :: vr)))) ::
      (pre ++ [strB "Host: " ++ hv] ++ post))) = true := validUtf8_of_ascii _ hascii
  have hfh : splitSpaceGo [] (mB ++ (32 :: (rt ++ (32 :: vr)))) = [mB, rt, vr] := by
    rw [splitSpaceGo_append mB (fun c hc => (hmb c hc).2.1) (rt ++ (32 :: vr)) []]
    rw [splitSpaceGo_append rt (fun c hc => (hrt c hc).2.1) vr []]
    rw [splitSpaceGo_no_space vr (fun c hc => (hvr c hc).2.1) []]
    simp
  obtain ⟨st1, hst1, _⟩ := processLines_ok_of_safe m pre ⟨none, none, none⟩
    (fun l hl => (hlines l (by simp [hl])).2)
  obtain ⟨st2, hst2, hst2h⟩ := processLines_ok_of_safe m post { st1 with host := some hv }
    (fun l hl => (hlines l (by simp [hl])).2)
  have hplines : processLines m ⟨none, none, none⟩
      (pre ++ [strB "Host: " ++ hv] ++ post) = .ok st2 := by
    rw [List.append_assoc, processLines_append m pre ([strB "Host: " ++ hv] ++ post)
      ⟨none, none, none⟩, hst1]
    show processLines m st1 ((strB "Host: " ++ hv) :: post) = .ok st2
    unfold processLines
    rw [processLine_host m st1 hv hhvne]
    exact hst2
  have hhost2 : st2.host = some hv := by
    rw [hst2h hpost]
  refine ⟨st2.content_type, st2.content_length, ?_⟩
  unfold Request.from_bytes
  rw [if_pos hvalid]
  dsimp only
  rw [hsplit]
  rw [if_pos (by simp : ((mB ++ (32 :: (rt ++ (32 :: vr)))) ::
    (pre ++ [strB "Host: " ++ hv] ++ post)).length > 1)]
  simp only [List.getD_cons_zero, List.getD_cons_succ, List.tail_cons]
  rw [hfh]
  rw [if_neg (by simp : ¬([mB, rt, vr].length ≠ 3))]
  simp only [List.getD_cons_zero, List.getD_cons_succ]
  rw [hm]
  dsimp only
  rw [hplines]
  dsimp only
  rw [hhost2]

/-- C5 witness: a concrete two-line block `GET /a HTTP/1.1` + `Host: x`
satisfies every hypothesis of the amended claim and parses with the four
fields equal to the inputs. -/
theorem from_bytes_wellformed_fields_amended_witness :
    methodFromBytes (strB "GET") = .ok HttpMethod.GET ∧
    (∃ ct cl, Request.from_bytes
      (joinCRLF ((strB "GET" ++ (32 :: (strB "/a" ++ (32 :: strB "HTTP/1.1")))) ::
        ([] ++ [strB "Host: " ++ strB "x"] ++ []))) =
      .ok { method := HttpMethod.GET, route := strB "/a",
            http_version := strB "HTTP/1.1", host := strB "x",
            content_type := ct, content_length := cl, content := [] }) :=
  ⟨rfl,
   from_bytes_wellformed_fields_amended (strB "GET") (strB "/a") (strB "HTTP/1.1")
     (strB "x") HttpMethod.GET [] [] rfl (by decide) (by decide) (by decide) (by decide)
     (by simp) (by simp)⟩

theorem ascii_append (a b : Bytes) (ha : ∀ c ∈ a, c < 128) (hb : ∀ c ∈ b, c < 128) :
    ∀ c ∈ a ++ b, c < 128 := by
  intro c hc
  rcases List.mem_append.mp hc with hx | hx
  · exact ha c hx
  · exact hb c hx

theorem ascii_drop (a : Bytes) (n : Nat) (ha : ∀ c ∈ a, c < 128) :
    ∀ c ∈ a.drop n, c < 128 :=
  fun c hc => ha c (List.mem_of_mem_drop hc)

theorem ascii_replicate : ∀ c ∈ (List.replicate 512 0 : Bytes), c < 128 := by
  intro c hc
  rw [List.eq_of_mem_replicate hc]
  decide

/-- C2: a stream that delivers the complete header block (ending in
`\r\n\r\n`, with no body bytes in the same chunk) with a declared
Content-Length `cl > 0`, followed by the body split across two chunks of
`|c2| < cl` and `|c3| = cl - |c2|` bytes, makes the reading loop of
`handle_request` continue (not complete) after the header chunk and after
the first body chunk — where `pending_bytes = cl - |c2| > 0` bytes remain —
and signal completion exactly at the second body chunk, once `cl` body
bytes have arrived in total. -/
theorem handle_request_body_two_chunks_completion
    (h c2 c3 : Bytes) (r : Request) (cl : Nat)
    (hh : ∀ c ∈ h, c < 128) (hc2 : ∀ c ∈ c2, c < 128) (hc3 : ∀ c ∈ c3, c < 128)
    (hlen1 : h.length + 4 ≤ 512) (hlen2 : c2.length ≤ 512) (hlen3 : c3.length ≤ 512)
    (hfind : findHeaderEnd ((h ++ [13, 10, 13, 10]) ++
      (List.replicate 512 0).drop (h.length + 4)) = some h.length)
    (hreq : Request.from_bytes h = .ok r)
    (hcl : r.content_length = some cl)
    (hc2lt : c2.length < cl) (hc2pos : 0 < c2.length)
    (hsum : c2.length + c3.length = cl) :
    ∃ s1 s2 s3,
      step initConnState (h ++ [13, 10, 13, 10]) = .next s1 ∧
      s1.reading_content = true ∧ s1.pending_bytes = cl ∧
      step s1 c2 = .next s2 ∧
      s2.reading_content = true ∧ s2.pending_bytes = cl - c2.length ∧
      step s2 c3 = .complete s3 := by
  have hclpos : 0 < cl := lt_of_le_of_lt (Nat.zero_le _) hc2lt
  have hc3pos : 0 < c3.length := by omega
  have hc1len : (h ++ [13, 10, 13, 10] : Bytes).length = h.length + 4 := by simp
  have htb1a : ∀ c ∈ (h ++ [13, 10, 13, 10]) ++
      (List.replicate 512 0).drop (h.length + 4), c < 128 :=
    ascii_append _ _ (ascii_append _ _ hh (by decide)) (ascii_drop _ _ ascii_replicate)
  have htb2a : ∀ c ∈ c2 ++ ((h ++ [13, 10, 13, 10]) ++
      (List.replicate 512 0).drop (h.length + 4)).drop c2.length, c < 128 :=
    ascii_append _ _ hc2 (ascii_drop _ _ htb1a)
  have htb3a : ∀ c ∈ c3 ++ (c2 ++ ((h ++ [13, 10, 13, 10]) ++
      (List.replicate 512 0).drop (h.length + 4)).drop c2.length).drop c3.length, c < 128 :=
    ascii_append _ _ hc3 (ascii_drop _ _ htb2a)
  have hs1 : step initConnState (h ++ [13, 10, 13, 10]) = .next
      { buf := h ++ [13, 10, 13, 10],
        temp_buff := (h ++ [13, 10, 13, 10]) ++
          (List.replicate 512 0).drop (h.length + 4),
        content_index := h.length + 4, reading_content := true,
        pending_bytes := cl, req := some r } := by
    unfold step
    dsimp only [initConnState]
    simp only [List.nil_append]
    rw [hc1len]
    rw [if_neg (by omega : ¬(h.length + 4 = 0))]
    rw [if_pos (validUtf8_of_ascii _ htb1a)]
    rw [if_pos ⟨rfl, by rw [hfind]; rfl⟩]
    rw [hfind]
    dsimp only [Option.getD]
    rw [if_neg (by omega : ¬(h.length + 4 < h.length))]
    rw [show h.length + 4 - (h.length + 4 - h.length) = h.length from by omega]
    rw [show (h ++ [13, 10, 13, 10] : Bytes).take h.length = h from List.take_left h _]
    rw [hreq]
    dsimp only
    rw [hcl]
    dsimp only
    rw [if_neg (by omega : ¬(h.length + 4 < h.length + 4))]
    rw [show h.length + 4 - h.length - 4 = 0 from by omega]
    rw [if_neg (by omega : ¬(cl < 0))]
    rw [Nat.sub_zero]
    rw [if_neg (by omega : ¬(cl = 0))]
  have hs2 : step
      { buf := h ++ [13, 10, 13, 10],
        temp_buff := (h ++ [13, 10, 13, 10]) ++
          (List.replicate 512 0).drop (h.length + 4),
        content_index := h.length + 4, reading_content := true,
        pending_bytes := cl, req := some r } c2 = .next
      { buf := (h ++ [13, 10, 13, 10]) ++ c2,
        temp_buff := c2 ++ ((h ++ [13, 10, 13, 10]) ++
          (List.replicate 512 0).drop (h.length + 4)).drop c2.length,
        content_index := h.length + 4, reading_content := true,
        pending_bytes := cl - c2.length, req := some r } := by
    unfold step
    dsimp only
    rw [if_neg (by omega : ¬(c2.length = 0))]
    rw [if_pos (validUtf8_of_ascii _ htb2a)]
    simp only [Bool.not_true, Bool.false_eq_true, false_and, if_false]
    rw [if_pos (show True ∧ cl > 0 from ⟨trivial, hclpos⟩)]
    rw [if_pos hc2lt]
    rw [if_neg (by omega : ¬(cl - c2.length = 0))]
  have hs3 : step
      { buf := (h ++ [13, 10, 13, 10]) ++ c2,
        temp_buff := c2 ++ ((h ++ [13, 10, 13, 10]) ++
          (List.replicate 512 0).drop (h.length + 4)).drop c2.length,
        content_index := h.length + 4, reading_content := true,
        pending_bytes := cl - c2.length, req := some r } c3 = .complete
      { buf := ((h ++ [13, 10, 13, 10]) ++ c2) ++ c3,
        temp_buff := c3 ++ (c2 ++ ((h ++ [13, 10, 13, 10]) ++
          (List.replicate 512 0).drop (h.length + 4)).drop c2.length).drop c3.length,
        content_index := h.length + 4, reading_content := false,
        pending_bytes := 0, req := some r } := by
    unfold step
    dsimp only
    rw [if_neg (by omega : ¬(c3.length = 0))]
    rw [if_pos (validUtf8_of_ascii _ htb3a)]
    simp only [Bool.not_true, Bool.false_eq_true, false_and, if_false]
    rw [if_pos (show True ∧ cl - c2.length > 0 from ⟨trivial, by omega⟩)]
    rw [if_neg (by omega : ¬(c3.length < cl - c2.length))]
    rw [if_pos rfl]
  exact ⟨_, _, _, hs1, rfl, rfl, hs2, rfl, rfl, hs3⟩

/-- C2 witness: the spec example — a POST header with `Content-Length: 13`
in one chunk, then `13` body bytes split as 7 + 6 across two chunks — runs
the reading loop through continue, continue-with-6-pending, complete. -/
theorem handle_request_body_two_chunks_completion_witness :
    findHeaderEnd ((strB "POST /x HTTP/1.1\r\nHost: a\r\nContent-Length: 13" ++
        [13, 10, 13, 10]) ++ (List.replicate 512 0).drop
        ((strB "POST /x HTTP/1.1\r\nHost: a\r\nContent-Length: 13").length + 4)) =
      some (strB "POST /x HTTP/1.1\r\nHost: a\r\nContent-Length: 13").length ∧
    Request.from_bytes (strB "POST /x HTTP/1.1\r\nHost: a\r\nContent-Length: 13") =
      .ok { method := .POST, route := strB "/x", http_version := strB "HTTP/1.1",
            host := strB "a", content_type := none, content_length := some 13,
            content := [] } ∧
    (∃ s1 s2 s3,
      step initConnState (strB "POST /x HTTP/1.1\r\nHost: a\r\nContent-Length: 13" ++
        [13, 10, 13, 10]) = .next s1 ∧
      s1.reading_content = true ∧ s1.pending_bytes = 13 ∧
      step s1 (strB "\x7b\"a\":1,") = .next s2 ∧
      s2.reading_content = true ∧
      s2.pending_bytes = 13 - (strB "\x7b\"a\":1,").length ∧
      step s2 (strB "\"b\":2\x7d") = .complete s3) :=
  ⟨by decide, rfl,
   handle_request_body_two_chunks_completion
     (strB "POST /x HTTP/1.1\r\nHost: a\r\nContent-Length: 13")
     (strB "\x7b\"a\":1,") (strB "\"b\":2\x7d")
     { method := .POST, route := strB "/x", http_version := strB "HTTP/1.1",
       host := strB "a", content_type := none, content_length := some 13,
       content := [] } 13
     (by decide) (by decide) (by decide) (by decide) (by decide) (by decide)
     (by decide) rfl rfl (by decide) (by decide) (by decide)⟩
